import Mathlib

/-!
A shallow embedding of the insider-transactions pipeline of `src/transac2.py`
(functions `clean_value`, `format_currency` and the data transformation in
`load_data`), together with theorems settling the specification claims.

Modelling conventions:
* Python floats are modelled by `PyFloat`: finite values kept exact as
  rationals (`ℚ`), plus the two infinities and NaN (see `pyFloatChars?`).
* A pandas cell that is `None`/`NaN` (i.e. `pd.notnull` is false) is
  modelled by `RawValue.null` resp. `Option.none`.
* Calendar timestamps (day precision) are modelled by their proleptic
  Gregorian ordinal as an `Int`; comparisons are order-isomorphic to
  pandas datetime comparisons.
-/

/- `Rat.mul`, `Rat.add`, `Rat.sub`, `Rat.inv` and `Rat.ofScientific` are
`@[irreducible]` in Batteries; restoring the default reducibility lets
`decide` evaluate concrete rational arithmetic in this file. -/
attribute [local semireducible] Rat.mul Rat.add Rat.sub Rat.inv Rat.ofScientific

namespace Transac

/-- A raw cell of the `Value` column: a string, a number, or null/NaN
(`pd.notnull` false). -/
inductive RawValue where
  | null : RawValue
  | num (q : ℚ) : RawValue
  | str (s : String) : RawValue
deriving DecidableEq, Repr

/-! ### Character helpers -/

/-- ASCII decimal digit test, by code point (same digits Python's
`float()` accepts in this development; non-ASCII digits are not modelled). -/
def isDigitC (c : Char) : Bool := 48 ≤ c.toNat && c.toNat ≤ 57

/-- Numeric value of an ASCII digit character. -/
def digitVal (c : Char) : Nat := c.toNat - 48

/-- The ASCII character for a decimal digit. -/
def digitChar : Nat → Char
  | 0 => '0' | 1 => '1' | 2 => '2' | 3 => '3' | 4 => '4'
  | 5 => '5' | 6 => '6' | 7 => '7' | 8 => '8' | 9 => '9'
  | _ => '*'

/-- ASCII whitespace stripped by Python's `float()` around a numeric
literal (space, tab, line feed, vertical tab, form feed, carriage
return).  Unicode whitespace, which `float()` also strips, is outside
this ASCII model. -/
def isPySpace (c : Char) : Bool :=
  c.toNat = 32 || c.toNat = 9 || c.toNat = 10 || c.toNat = 11 ||
    c.toNat = 12 || c.toNat = 13

/-- ASCII lower-casing of one character (used for the `inf`/`nan`
keywords of `float()` and for `re.IGNORECASE` on the ASCII patterns
`Sale`, `Purchase`, `Buy`). -/
def lowerC (c : Char) : Char :=
  if 65 ≤ c.toNat ∧ c.toNat ≤ 90 then Char.ofNat (c.toNat + 32) else c

/-- Characters kept by `value.replace('$', '').replace(',', '')` in
`clean_value` (source line 16): everything except `$` and `,`. -/
def stripPred (c : Char) : Bool := !(c == '$') && !(c == ',')

/-! ### The Python `float()` literal parser

`pyFloatChars?` models `float(s)`: optional surrounding whitespace, an
optional sign, then either a decimal literal — digit runs with PEP 515
single underscores between digits, an optional fractional part (at
least one digit overall) and an optional decimal exponent — or one of
the case-insensitive special keywords `inf`/`infinity`/`nan`.  The
numeric value is kept as the exact rational of the literal (`float()`'s
rounding of that value to the nearest double, including the overflow of
huge literals to `inf`, is not modelled); non-ASCII digit and
whitespace forms, which CPython first transliterates to ASCII, are
outside this ASCII model. -/

/-- A Python float: a finite value (kept exact as a rational), one of
the two infinities, or NaN. -/
inductive PyFloat where
  | fin (q : ℚ) : PyFloat
  | inf : PyFloat
  | negInf : PyFloat
  | nan : PyFloat
deriving DecidableEq, Repr

/-- Apply a parsed leading minus sign to a finite value. -/
def applySign (neg : Bool) (q : ℚ) : ℚ := if neg then -q else q

/-- Value of a digit run read most-significant first (as Python does). -/
def natOfDigits (ds : List Char) : Nat :=
  ds.foldl (fun a c => 10 * a + digitVal c) 0

/-- Consume an optional leading sign; `true` means negative. -/
def parseSign (cs : List Char) : Bool × List Char :=
  match cs with
  | [] => (false, [])
  | c :: t => if c = '+' then (false, t) else if c = '-' then (true, t) else (false, cs)

/-- Continue a digit run after at least one digit: further digits, and
a single `_` only when a digit follows it (PEP 515); anything else —
including a dangling underscore — ends the run unconsumed, which then
poisons the surrounding parse exactly as `float()` rejects it. -/
def takeDigitsUCont : List Char → List Char × List Char
  | [] => ([], [])
  | c :: t =>
    if isDigitC c then
      let p := takeDigitsUCont t
      (c :: p.1, p.2)
    else if c = '_' then
      match t with
      | d :: u =>
        if isDigitC d then
          let p := takeDigitsUCont u
          (d :: p.1, p.2)
        else ([], c :: t)
      | [] => ([], [c])
    else ([], c :: t)

/-- A maximal digit run with PEP 515 underscores, returned with the
underscores removed, plus the unconsumed rest. -/
def takeDigitsU : List Char → List Char × List Char
  | [] => ([], [])
  | c :: t =>
    if isDigitC c then
      let p := takeDigitsUCont t
      (c :: p.1, p.2)
    else ([], c :: t)

/-- The special keywords of `float()`: the body after the optional sign
must be `inf`, `infinity` or `nan` case-insensitively, up to trailing
whitespace. -/
def keywordVal (neg : Bool) (body : List Char) : Option PyFloat :=
  let w := ((body.reverse.dropWhile isPySpace).reverse).map lowerC
  if w = "inf".data ∨ w = "infinity".data then
    some (if neg then .negInf else .inf)
  else if w = "nan".data then some .nan
  else none

/-- Parse the exponent after `e`/`E` and the trailing whitespace. -/
def parseExpPart (neg : Bool) (v : ℚ) (t : List Char) : Option PyFloat :=
  let es := parseSign t
  let p := takeDigitsU es.2
  if p.1.isEmpty then none
  else if (p.2.dropWhile isPySpace).isEmpty then
    some (.fin (applySign neg
      (v * (10 : ℚ) ^ (if es.1 then -(natOfDigits p.1 : Int) else (natOfDigits p.1 : Int)))))
  else none

/-- Accept an optional exponent and trailing whitespace after the mantissa. -/
def finishTail (neg : Bool) (v : ℚ) (rest : List Char) : Option PyFloat :=
  match rest with
  | 'e' :: t => parseExpPart neg v t
  | 'E' :: t => parseExpPart neg v t
  | t => if (t.dropWhile isPySpace).isEmpty then some (.fin (applySign neg v)) else none

/-- `float(s)` as a character-list parser. -/
def pyFloatChars? (cs0 : List Char) : Option PyFloat :=
  let cs := cs0.dropWhile isPySpace
  let sp := parseSign cs
  let p1 := takeDigitsU sp.2
  match p1.2 with
  | '.' :: rest2 =>
    let p2 := takeDigitsU rest2
    if p1.1.isEmpty && p2.1.isEmpty then none
    else
      finishTail sp.1
        ((natOfDigits p1.1 : ℚ) + (natOfDigits p2.1 : ℚ) / (10 : ℚ) ^ p2.1.length) p2.2
  | _ =>
    if p1.1.isEmpty then keywordVal sp.1 sp.2
    else finishTail sp.1 (natOfDigits p1.1 : ℚ) p1.2

/-- `float(s)` on strings. -/
def pyFloat? (s : String) : Option PyFloat := pyFloatChars? s.data

/-! ### `clean_value` (source lines 13–19) -/

/-- `clean_value` from the source: a string has every `$` and `,` removed
and is then parsed with `float`, any parse failure yielding `0.0`; a
non-string is cast with `float` when `pd.notnull` holds and is `0.0`
otherwise. -/
def clean_value : RawValue → PyFloat
  | .str s =>
    match pyFloatChars? (s.data.filter stripPred) with
    | some v => v
    | none => .fin 0
  | .num q => .fin q
  | .null => .fin 0

/-- Modelled from the spec §4.2 wording for the refinement check of C4:
the rules in the spec's stated order — null/absent first, then numeric
cast, then string strip-and-parse with `0.0` on failure. -/
def specParseValue : RawValue → PyFloat
  | .null => .fin 0
  | .num q => .fin q
  | .str s =>
    match pyFloatChars? (s.data.filter stripPred) with
    | some v => v
    | none => .fin 0

/-- The rational carried by a finite parsed value.  The downstream
table model is restricted to `Value` cells that parse finite — the
intended domain of spec §3's invariant; a cell parsing to `±inf`/NaN
would propagate IEEE specials through the source's sums, sorts and
formatting, which the rational-valued table model does not represent. -/
def PyFloat.toRat : PyFloat → ℚ
  | .fin q => q
  | _ => 0

/-! ### `format_currency` (source lines 21–22) -/

/-- Decimal digits of `n`, most significant first, via a structural
fuel-based recursion (`natToDigits` supplies sufficient fuel). -/
def natToDigitsAux : Nat → Nat → List Char
  | 0, _ => []
  | fuel + 1, n =>
    if n < 10 then [digitChar n]
    else natToDigitsAux fuel (n / 10) ++ [digitChar (n % 10)]

/-- Decimal digits of `n`, most significant first. -/
def natToDigits (n : Nat) : List Char := natToDigitsAux (n + 1) n

/-- The exactly-two-digit rendering of `m < 100` used for the cents part
of `%.2f`. -/
def twoDigits (m : Nat) : List Char := [digitChar (m / 10), digitChar (m % 10)]

/-- Insert the thousands separators of the `,` format flag; works on the
reversed digit list, `i` counting digits already emitted. -/
def groupRevAux : List Char → Nat → List Char
  | [], _ => []
  | c :: rest, i =>
    if i % 3 = 0 ∧ i ≠ 0 then ',' :: c :: groupRevAux rest (i + 1)
    else c :: groupRevAux rest (i + 1)

/-- Digit list with a `,` every three digits counting from the right,
as produced by Python's `{:,}` format flag. -/
def groupDigits (ds : List Char) : List Char := (groupRevAux ds.reverse 0).reverse

/-- Round a rational to whole cents.  Wherever this development applies
it, `q * 100` is an integer, so the tie-break of the nearest-integer
rounding (Python rounds the underlying double to even) is never
exercised; half-up is used as the representative. -/
def roundCents (q : ℚ) : Nat := (⌊q * 100 + 1 / 2⌋).toNat

/-- The digits of `f"{v:,.2f}"` for a non-negative number of cents. -/
def fmtBody (n : Nat) : List Char :=
  groupDigits (natToDigits (n / 100)) ++ '.' :: twoDigits (n % 100)

/-- `format_currency` from the source: `"N/A"` on null, otherwise
`f"${value:,.2f}"` (the sign, when negative, appears after the `$`). -/
def format_currency : Option ℚ → String
  | none => "N/A"
  | some q =>
    if q < 0 then ⟨'$' :: '-' :: fmtBody (roundCents (-q))⟩
    else ⟨'$' :: fmtBody (roundCents q)⟩

/-! ### Case-insensitive substring matching (`Series.str.contains(..., case=False)`) -/

/-- Does `hay` start with `needle`? -/
def leadsWith : List Char → List Char → Bool
  | [], _ => true
  | _ :: _, [] => false
  | c :: n, d :: h => c == d && leadsWith n h

/-- Does `needle` occur as a contiguous substring of `hay`? -/
def hasSub (hay needle : List Char) : Bool :=
  leadsWith needle hay ||
    match hay with
    | [] => false
    | _ :: t => hasSub t needle

/-- Case-insensitive substring containment, the semantics of
`str.contains(pat, case=False)` on the regex-free patterns used here. -/
def containsCI (s pat : String) : Bool :=
  hasSub (s.data.map lowerC) (pat.data.map lowerC)

/-- The `df_venda` filter condition (source lines 51/54): the kind cell
contains `Sale` case-insensitively; a missing (NaN) cell matches nothing
(`na=False`). -/
def saleMatch : Option String → Bool
  | some s => containsCI s "Sale"
  | none => false

/-- The `df_compra` filter condition (source lines 52/55): the kind cell
matches the regex `Purchase|Buy` case-insensitively; a missing (NaN)
cell matches nothing (`na=False`). -/
def purchaseMatch : Option String → Bool
  | some s => containsCI s "Purchase" || containsCI s "Buy"
  | none => false

/-! ### The record-set model

A yfinance insider-transactions dataframe.  Which of the variant
date/kind columns exist is a property of the whole table, modelled by
the four `has*` flags; a record's field for an absent column is
meaningless and never read.  The `Insider` and `Value` columns, which
every feed version carries (spec §3), are modelled as always present.
A `None`/`NaN` kind cell is `Option.none`. -/

/-- One raw record (one dataframe row). -/
structure RawRecord where
  startDate : Int
  dateCol : Int
  textCol : Option String
  typeCol : Option String
  insider : String
  value : RawValue
deriving DecidableEq, Repr

/-- A raw record set (the dataframe returned by the data collaborator). -/
structure RawTable where
  hasStartDate : Bool
  hasDate : Bool
  hasText : Bool
  hasType : Bool
  rows : List RawRecord
deriving DecidableEq, Repr

/-- Is one of the accepted date columns present (source lines 38–41)? -/
def dateColPresent (t : RawTable) : Bool := t.hasStartDate || t.hasDate

/-- Is one of the accepted kind columns present (source lines 50/53)? -/
def kindColPresent (t : RawTable) : Bool := t.hasText || t.hasType

/-- The resolved `Date` value of a record: `Start Date` takes priority
over `Date` (source lines 38–41).  Meaningful only when
`dateColPresent t`. -/
def dateVal (t : RawTable) (r : RawRecord) : Int :=
  if t.hasStartDate then r.startDate else r.dateCol

/-- The resolved kind cell of a record: `Text` takes priority over
`Type` (source lines 50/53).  Meaningful only when `kindColPresent t`. -/
def kindVal (t : RawTable) (r : RawRecord) : Option String :=
  if t.hasText then r.textCol else r.typeCol

/-- The hard-coded cutoff `pd.to_datetime('2023-01-01')` of source line
47, as a proleptic Gregorian ordinal (`date(2023, 1, 1).toordinal()`). -/
def cutoffDate : Int := 738521

/-- The temporal filter `df[df['Date'] >= date_filter]` (source line 48). -/
def filteredRows (t : RawTable) : List RawRecord :=
  t.rows.filter (fun r => cutoffDate ≤ dateVal t r)

/-- `df_venda` before sorting (source lines 51/54). -/
def vendaRows (t : RawTable) : List RawRecord :=
  (filteredRows t).filter (fun r => saleMatch (kindVal t r))

/-- `df_compra` before sorting (source lines 52/55). -/
def compraRows (t : RawTable) : List RawRecord :=
  (filteredRows t).filter (fun r => purchaseMatch (kindVal t r))

/-- `sort_values(..., ascending=False)` on key `k`, modelled as the
stable descending insertion sort.  The source uses the default
`kind='quicksort'`, which pandas documents as unstable, so the relative
order of equal keys is not a program guarantee; accordingly this
development relies on this deterministic model only for tie-insensitive
properties (membership, permutation, descending key order) and for
concrete inputs below numpy's small-array threshold, where the introsort
kernel is an insertion sort and — through `nargsort`'s
reverse/argsort/reverse implementation of descending order — the real
tie order coincides with this model. -/
def sortDescBy {α γ : Type} [LinearOrder γ] (k : α → γ) (l : List α) : List α :=
  List.insertionSort (fun a b => k b ≤ k a) l

/-- `df_venda.sort_values('Date', ascending=False)` (source line 58). -/
def vendaSorted (t : RawTable) : List RawRecord := sortDescBy (dateVal t) (vendaRows t)

/-- `df_compra.sort_values('Date', ascending=False)` (source line 59). -/
def compraSorted (t : RawTable) : List RawRecord := sortDescBy (dateVal t) (compraRows t)

/-- Code-point lexicographic comparison of character lists (how Python
compares the strings that pandas `groupby` sorts its keys by). -/
def lexLe : List Char → List Char → Bool
  | [], _ => true
  | _ :: _, [] => false
  | c :: cs, d :: ds =>
    if c.toNat < d.toNat then true
    else if d.toNat < c.toNat then false
    else lexLe cs ds

/-- Code-point lexicographic order on strings. -/
def strLe (a b : String) : Bool := lexLe a.data b.data

/-- The group keys of `groupby("Insider")` (source lines 68–69): the
distinct insiders in ascending order (`groupby` sorts its keys). -/
def aggKeys (rows : List (String × ℚ)) : List String :=
  List.insertionSort (fun a b => strLe a b = true) (rows.map Prod.fst).dedup

/-- One (insider, summed `Value_Float`) row per group key, in key order. -/
def aggGrouped (rows : List (String × ℚ)) : List (String × ℚ) :=
  (aggKeys rows).map (fun k =>
    (k, ((rows.filter (fun p => p.1 == k)).map Prod.snd).sum))

/-- `groupby("Insider")['Value_Float'].sum().sort_values(ascending=False)`
(source lines 68–69) on (insider, numeric value) pairs: group, sum per
group, then the stable descending sort on the sums. -/
def aggregate (rows : List (String × ℚ)) : List (String × ℚ) :=
  sortDescBy Prod.snd (aggGrouped rows)

/-- The (insider, `Value_Float`) pairs of a sorted event table
(source line 64: `df['Value_Float'] = df['Value'].apply(clean_value)`),
on the finite-value domain of the table model. -/
def insiderValuePairs (rows : List RawRecord) : List (String × ℚ) :=
  rows.map (fun r => (r.insider, (clean_value r.value).toRat))

/-- A cell of a result table: numeric, string, or a day-precision date
(the ISO `strftime` rendering of dates is presentational and kept as the
ordinal here). -/
inductive Cell where
  | num (q : ℚ) : Cell
  | str (s : String) : Cell
  | date (d : Int) : Cell
deriving DecidableEq, Repr

/-- Is this cell numeric? -/
def Cell.isNum : Cell → Bool
  | .num _ => true
  | _ => false

/-- A final event-table row (source lines 83–87): columns `Date`,
`Insider`, `Value` (the formatted `Value_Display` renamed to `Value`)
and the numeric companion `Value_Float`. -/
def eventOutRow (t : RawTable) (r : RawRecord) : List (String × Cell) :=
  [("Date", Cell.date (dateVal t r)),
   ("Insider", Cell.str r.insider),
   ("Value", Cell.str (format_currency (some ((clean_value r.value).toRat)))),
   ("Value_Float", Cell.num ((clean_value r.value).toRat))]

/-- A final aggregated-table row (source lines 72–74): `Value` is the
formatted string and the numeric `Value_Float` column is dropped. -/
def aggOutRow (p : String × ℚ) : List (String × Cell) :=
  [("Insider", Cell.str p.1), ("Value", Cell.str (format_currency (some p.2)))]

/-- How a `load_data` run ends, as surfaced through streamlit. -/
inductive LoadStatus where
  | ok : LoadStatus
  | noData : LoadStatus
  | dateColMissing : LoadStatus
  | exceptionCaught : LoadStatus
deriving DecidableEq, Repr

/-- Is the status a surfaced `st.error` message?  `dateColMissing` is
the explicit error of source line 43; `exceptionCaught` is the outer
`except` handler of source lines 93–95 (reached e.g. through the
`NameError` on `df_venda` when neither kind column exists). -/
def LoadStatus.isError : LoadStatus → Bool
  | .dateColMissing => true
  | .exceptionCaught => true
  | _ => false

/-- The four result tables of one `load_data` run plus its status. -/
structure PipelineOutput where
  venda : List (List (String × Cell))
  compra : List (List (String × Cell))
  aggVenda : List (List (String × Cell))
  aggCompra : List (List (String × Cell))
  status : LoadStatus
deriving DecidableEq, Repr

/-- The transformation of `load_data` (source lines 30–95) on a fetched
record set.  An empty fetch is the `st.warning` branch of lines 90–92;
a missing date column is the error of lines 42–44; a missing kind
column leaves `df_venda` undefined, so line 58 raises `NameError`,
caught by the outer handler of lines 93–95 — in every non-`ok` case all
four returned tables are empty. -/
def load_data (t : RawTable) : PipelineOutput :=
  if t.rows.isEmpty then ⟨[], [], [], [], .noData⟩
  else if ¬ dateColPresent t then ⟨[], [], [], [], .dateColMissing⟩
  else if ¬ kindColPresent t then ⟨[], [], [], [], .exceptionCaught⟩
  else
    ⟨(vendaSorted t).map (eventOutRow t),
     (compraSorted t).map (eventOutRow t),
     (aggregate (insiderValuePairs (vendaSorted t))).map aggOutRow,
     (aggregate (insiderValuePairs (compraSorted t))).map aggOutRow,
     .ok⟩

/-- Modelled from the spec (claim C3): aggregation as the claim words
it, with value ties broken by the insider's first appearance in the
source table (`dedup` keeps first occurrences in order, and the
descending sort is stable over that order). -/
def specAggFirstAppear (rows : List (String × ℚ)) : List (String × ℚ) :=
  let keys := (rows.map Prod.fst).dedup
  let grouped := keys.map (fun k =>
    (k, ((rows.filter (fun p => p.1 == k)).map Prod.snd).sum))
  sortDescBy Prod.snd grouped

/-! ### Lemmas: digits and the `format`/`parse` round trip -/

theorem digitChar_isDigit {d : Nat} (h : d < 10) : isDigitC (digitChar d) = true := by
  interval_cases d <;> decide

theorem digitVal_digitChar {d : Nat} (h : d < 10) : digitVal (digitChar d) = d := by
  interval_cases d <;> decide

theorem isDigitC_toNat {c : Char} (h : isDigitC c = true) :
    48 ≤ c.toNat ∧ c.toNat ≤ 57 := by
  simpa [isDigitC, Bool.and_eq_true, decide_eq_true_eq] using h

theorem isDigitC_not_space {c : Char} (h : isDigitC c = true) : isPySpace c = false := by
  obtain ⟨h1, h2⟩ := isDigitC_toNat h
  simp only [isPySpace, Bool.or_eq_false_iff, decide_eq_false_iff_not]
  omega

theorem isDigitC_strip {c : Char} (h : isDigitC c = true) : stripPred c = true := by
  obtain ⟨h1, h2⟩ := isDigitC_toNat h
  simp only [stripPred, Bool.and_eq_true, Bool.not_eq_true', beq_eq_false_iff_ne, ne_eq]
  constructor
  · rintro rfl; simp at h1
  · rintro rfl; simp at h1

theorem isDigitC_ne_plus {c : Char} (h : isDigitC c = true) : ¬ c = '+' := by
  obtain ⟨h1, _⟩ := isDigitC_toNat h
  rintro rfl; simp at h1

theorem isDigitC_ne_minus {c : Char} (h : isDigitC c = true) : ¬ c = '-' := by
  obtain ⟨h1, _⟩ := isDigitC_toNat h
  rintro rfl; simp at h1

/-- A digit run followed by a non-digit, non-underscore boundary (or the
end of input) is consumed exactly, seen from inside the run. -/
theorem takeDigitsUCont_digits (ds rest : List Char)
    (hds : ∀ c ∈ ds, isDigitC c = true)
    (hrest : ∀ b u, rest = b :: u → isDigitC b = false ∧ ¬ b = '_') :
    takeDigitsUCont (ds ++ rest) = (ds, rest) := by
  induction ds with
  | nil =>
    cases rest with
    | nil => rfl
    | cons b u =>
      obtain ⟨hb, hbu⟩ := hrest b u rfl
      show takeDigitsUCont (b :: u) = ([], b :: u)
      unfold takeDigitsUCont
      rw [if_neg (by simp [hb]), if_neg hbu]
  | cons c t ih =>
    have hc : isDigitC c = true := hds c (List.mem_cons_self c t)
    have iht := ih (fun x hx => hds x (List.mem_cons_of_mem c hx))
    show takeDigitsUCont (c :: (t ++ rest)) = (c :: t, rest)
    unfold takeDigitsUCont
    rw [if_pos hc, iht]

/-- A non-empty digit run followed by a non-digit, non-underscore
boundary (or the end) is consumed exactly. -/
theorem takeDigitsU_digits (ds rest : List Char) (hne : ds ≠ [])
    (hds : ∀ c ∈ ds, isDigitC c = true)
    (hrest : ∀ b u, rest = b :: u → isDigitC b = false ∧ ¬ b = '_') :
    takeDigitsU (ds ++ rest) = (ds, rest) := by
  obtain ⟨c, t, rfl⟩ : ∃ c t, ds = c :: t := by
    cases ds with
    | nil => exact absurd rfl hne
    | cons c t => exact ⟨c, t, rfl⟩
  have hc : isDigitC c = true := hds c (List.mem_cons_self c t)
  have ht := takeDigitsUCont_digits t rest
    (fun x hx => hds x (List.mem_cons_of_mem c hx)) hrest
  simp [takeDigitsU, hc, ht]

/-- An all-digit list standing alone is consumed exactly. -/
theorem takeDigitsU_all (ds : List Char) (hds : ∀ c ∈ ds, isDigitC c = true) :
    takeDigitsU ds = (ds, []) := by
  cases ds with
  | nil => rfl
  | cons c t =>
    have := takeDigitsU_digits (c :: t) [] (by simp) hds
      (by intro b u hbu; simp at hbu)
    simpa using this

theorem natToDigitsAux_spec : ∀ (fuel n : Nat), n < fuel →
    natToDigitsAux fuel n ≠ [] ∧ (∀ c ∈ natToDigitsAux fuel n, isDigitC c = true) ∧
      natOfDigits (natToDigitsAux fuel n) = n := by
  intro fuel
  induction fuel with
  | zero => intro n h; omega
  | succ fuel ih =>
    intro n h
    by_cases h10 : n < 10
    · refine ⟨by simp [natToDigitsAux, h10], ?_, ?_⟩
      · intro c hc
        simp only [natToDigitsAux, if_pos h10, List.mem_singleton] at hc
        exact hc ▸ digitChar_isDigit h10
      · simp [natToDigitsAux, if_pos h10, natOfDigits, digitVal_digitChar h10]
    · have hdiv : n / 10 < fuel := by
        have : n / 10 < n := Nat.div_lt_self (by omega) (by omega)
        omega
      obtain ⟨hne, hdig, hval⟩ := ih (n / 10) hdiv
      refine ⟨?_, ?_, ?_⟩
      · simp [natToDigitsAux, if_neg h10]
      · intro c hc
        simp only [natToDigitsAux, if_neg h10, List.mem_append, List.mem_singleton] at hc
        rcases hc with hc | hc
        · exact hdig c hc
        · exact hc ▸ digitChar_isDigit (Nat.mod_lt n (by omega))
      · simp only [natToDigitsAux, if_neg h10, natOfDigits] at *
        rw [List.foldl_append]
        simp only [List.foldl_cons, List.foldl_nil]
        rw [hval, digitVal_digitChar (Nat.mod_lt n (by omega))]
        omega

theorem natToDigits_ne_nil (n : Nat) : natToDigits n ≠ [] :=
  (natToDigitsAux_spec (n + 1) n (Nat.lt_succ_self n)).1

theorem natToDigits_digits (n : Nat) : ∀ c ∈ natToDigits n, isDigitC c = true :=
  (natToDigitsAux_spec (n + 1) n (Nat.lt_succ_self n)).2.1

theorem natOfDigits_natToDigits (n : Nat) : natOfDigits (natToDigits n) = n :=
  (natToDigitsAux_spec (n + 1) n (Nat.lt_succ_self n)).2.2

theorem twoDigits_digits {m : Nat} (h : m < 100) : ∀ c ∈ twoDigits m, isDigitC c = true := by
  intro c hc
  have h1 : m / 10 < 10 := by omega
  have h2 : m % 10 < 10 := Nat.mod_lt m (by omega)
  simp only [twoDigits, List.mem_cons, List.mem_singleton, List.not_mem_nil, or_false] at hc
  rcases hc with hc | hc
  · exact hc ▸ digitChar_isDigit h1
  · exact hc ▸ digitChar_isDigit h2

theorem natOfDigits_twoDigits {m : Nat} (h : m < 100) : natOfDigits (twoDigits m) = m := by
  have h1 : m / 10 < 10 := by omega
  have h2 : m % 10 < 10 := Nat.mod_lt m (by omega)
  simp only [natOfDigits, twoDigits, List.foldl_cons, List.foldl_nil,
    digitVal_digitChar h1, digitVal_digitChar h2]
  omega

theorem groupRevAux_filter (l : List Char) (i : Nat) :
    (groupRevAux l i).filter stripPred = l.filter stripPred := by
  induction l generalizing i with
  | nil => simp [groupRevAux]
  | cons c t ih =>
    by_cases hi : i % 3 = 0 ∧ i ≠ 0
    · simp only [groupRevAux, if_pos hi, List.filter_cons]
      have : stripPred ',' = false := by decide
      simp [this, ih]
    · simp only [groupRevAux, if_neg hi, List.filter_cons]
      simp [ih]

theorem groupDigits_filter (ds : List Char) :
    (groupDigits ds).filter stripPred = ds.filter stripPred := by
  unfold groupDigits
  rw [List.filter_reverse, groupRevAux_filter, List.filter_reverse, List.reverse_reverse]

/-- The parser on a digit run, a dot, and a trailing digit run — the
shape `format_currency` emits after stripping. -/
theorem pyFloatChars_digits_dot (ds two : List Char) (hne : ds ≠ [])
    (hds : ∀ c ∈ ds, isDigitC c = true) (htwo : ∀ c ∈ two, isDigitC c = true) :
    pyFloatChars? (ds ++ '.' :: two) =
      some (.fin ((natOfDigits ds : ℚ) + (natOfDigits two : ℚ) / (10 : ℚ) ^ two.length)) := by
  obtain ⟨c, t, rfl⟩ : ∃ c t, ds = c :: t := by
    cases ds with
    | nil => exact absurd rfl hne
    | cons c t => exact ⟨c, t, rfl⟩
  have hc : isDigitC c = true := hds c (List.mem_cons_self c t)
  have hrun := takeDigitsU_digits (c :: t) ('.' :: two) (by simp) hds
    (by intro b u hbu; injection hbu with h1 h2; subst h1; exact ⟨by decide, by decide⟩)
  have hall := takeDigitsU_all two htwo
  simp only [List.cons_append] at hrun
  simp only [pyFloatChars?, List.cons_append, List.dropWhile_cons, isDigitC_not_space hc,
    Bool.false_eq_true, if_false, parseSign, if_neg (isDigitC_ne_plus hc),
    if_neg (isDigitC_ne_minus hc), hrun, hall, List.isEmpty_cons, Bool.false_and,
    Bool.false_eq_true, if_false, finishTail, List.dropWhile_nil, List.isEmpty_nil,
    if_true, applySign]

/-- Rounding to cents is exact on exact-cents inputs. -/
theorem roundCents_div100 (k : Nat) : roundCents ((k : ℚ) / 100) = k := by
  unfold roundCents
  have h1 : ((k : ℚ) / 100) * 100 + 1 / 2 = ((k : ℤ) : ℚ) + 1 / 2 := by push_cast; ring
  rw [h1, Int.floor_int_add]
  norm_num

/-- Parsing back a formatted non-negative exact-cents amount. -/
theorem clean_value_fmtBody (n : Nat) :
    clean_value (.str ⟨'$' :: fmtBody n⟩) = .fin ((n : ℚ) / 100) := by
  show (match pyFloatChars? (List.filter stripPred ('$' :: fmtBody n)) with
    | some v => v
    | none => PyFloat.fin 0) = PyFloat.fin ((n : ℚ) / 100)
  have hdol : stripPred '$' = false := by decide
  have hdot : stripPred '.' = true := by decide
  have hds := natToDigits_digits (n / 100)
  have htwo := twoDigits_digits (Nat.mod_lt n (by omega) : n % 100 < 100)
  rw [List.filter_cons_of_neg (by simp [hdol]), fmtBody, List.filter_append,
    groupDigits_filter, List.filter_eq_self.mpr (fun c hc => isDigitC_strip (hds c hc)),
    List.filter_cons_of_pos (by simp [hdot]),
    List.filter_eq_self.mpr (fun c hc => isDigitC_strip (htwo c hc))]
  rw [pyFloatChars_digits_dot _ _ (natToDigits_ne_nil _) hds htwo]
  rw [natOfDigits_natToDigits, natOfDigits_twoDigits (Nat.mod_lt n (by omega))]
  show PyFloat.fin (((n / 100 : ℕ) : ℚ) +
      ((n % 100 : ℕ) : ℚ) / (10 : ℚ) ^ (twoDigits (n % 100)).length)
    = PyFloat.fin ((n : ℚ) / 100)
  have hlen : (twoDigits (n % 100)).length = 2 := rfl
  rw [hlen]
  have h0 : n / 100 * 100 + n % 100 = n := by omega
  have hsplit : (n : ℚ) = ((n / 100 : ℕ) : ℚ) * 100 + ((n % 100 : ℕ) : ℚ) := by
    exact_mod_cast h0.symm
  rw [hsplit]
  congr 1
  ring

/-! ### Lemmas: the descending sort (tie-insensitive properties only) -/

theorem sortDescBy_sorted {α γ : Type} [LinearOrder γ] (k : α → γ) (l : List α) :
    (sortDescBy k l).Sorted (fun a b => k b ≤ k a) := by
  haveI : IsTotal α (fun a b => k b ≤ k a) := ⟨fun a b => le_total (k b) (k a)⟩
  haveI : IsTrans α (fun a b => k b ≤ k a) := ⟨fun _ _ _ hab hbc => le_trans hbc hab⟩
  exact List.sorted_insertionSort _ l

theorem sortDescBy_perm {α γ : Type} [LinearOrder γ] (k : α → γ) (l : List α) :
    List.Perm (sortDescBy k l) l :=
  List.perm_insertionSort _ l

/-! ### The claims -/

/-- C2 — counterexample.  The claim asserts `clean_value` always
returns a finite value `≥ 0`: the raw string `"-5"` (which `float`
parses to `-5.0`) yields a negative result, and the raw string `"inf"`
(which `float` parses to infinity) yields a non-finite one. -/
theorem claim_C2_counterexample :
    clean_value (.str "-5") = .fin (-5) ∧ ¬ (0 : ℚ) ≤ (-5 : ℚ) ∧
      clean_value (.str "inf") = .inf := by decide

/-- C2 — amended.  `clean_value` always returns a float, but neither
finiteness nor non-negativity holds: `"-5"` passes through as `-5.0`
and `"inf"` as infinity.  Missing/null raw values yield exactly `0.0`,
and so does every (ASCII) string that `float()` rejects. -/
theorem claim_C2_amended :
    clean_value .null = .fin 0 ∧
      (∀ s : String, (∀ c ∈ s.data, c.toNat < 128) →
        pyFloatChars? (s.data.filter stripPred) = none →
        clean_value (.str s) = .fin 0) ∧
      clean_value (.str "-5") = .fin (-5) ∧
      clean_value (.str "inf") = .inf := by
  refine ⟨rfl, fun s _ h => ?_, by decide, by decide⟩
  simp [clean_value, h]

/-- C2 — witness for the amended claim at the unparsable string
`"not-a-number"`. -/
theorem claim_C2_witness : clean_value (.str "not-a-number") = .fin 0 :=
  claim_C2_amended.2.1 "not-a-number" (by decide) (by decide)

/-- C4 — confirmed.  `clean_value` agrees with the spec's rule order
(null/absent → `0.0`; numeric → cast; string → strip `$`,`,` then parse,
`0.0` on failure, no exception escaping — the function is total), and
the three quoted examples hold. -/
theorem claim_C4_parse_rules :
    (∀ v : RawValue, clean_value v = specParseValue v) ∧
      clean_value (.str "$1,234.56") = .fin (1234.56 : ℚ) ∧
      clean_value (.str "not-a-number") = .fin 0 ∧
      clean_value .null = .fin 0 := by
  refine ⟨fun v => ?_, by decide, by decide, rfl⟩
  cases v <;> rfl

/-- C5 — confirmed.  `format_currency` renders null as `"N/A"` and
`1234.5` as `"$1,234.50"`, and parsing inverts formatting on every
finite non-negative value with at most two decimal digits. -/
theorem claim_C5_format_parse_inverse :
    format_currency none = "N/A" ∧
      format_currency (some (1234.5 : ℚ)) = "$1,234.50" ∧
      ∀ v : ℚ, 0 ≤ v → (∃ k : ℕ, v = (k : ℚ) / 100) →
        clean_value (.str (format_currency (some v))) = .fin v := by
  refine ⟨rfl, by decide, ?_⟩
  rintro v _ ⟨k, rfl⟩
  have hneg : ¬ ((k : ℚ) / 100 < 0) := not_lt.mpr (by positivity)
  simp only [format_currency, if_neg hneg, roundCents_div100]
  exact clean_value_fmtBody k

/-- C5 — witness: the round trip at `1234.5`. -/
theorem claim_C5_witness :
    clean_value (.str (format_currency (some (1234.5 : ℚ)))) = .fin 1234.5 :=
  claim_C5_format_parse_inverse.2.2 1234.5 (by norm_num) ⟨123450, by norm_num⟩

/-- C7 — confirmed.  The temporal filter keeps exactly the records with
date `≥` the cutoff: membership is equivalent to the inclusive bound, a
record dated exactly at the cutoff is kept, and one dated a day earlier
is dropped. -/
theorem claim_C7_cutoff_inclusive :
    (∀ (t : RawTable) (r : RawRecord),
        r ∈ filteredRows t ↔ r ∈ t.rows ∧ cutoffDate ≤ dateVal t r) ∧
      (∀ (t : RawTable) (r : RawRecord),
        r ∈ t.rows → dateVal t r = cutoffDate → r ∈ filteredRows t) ∧
      ∀ (t : RawTable) (r : RawRecord),
        dateVal t r = cutoffDate - 1 → r ∉ filteredRows t := by
  have hmem : ∀ (t : RawTable) (r : RawRecord),
      r ∈ filteredRows t ↔ r ∈ t.rows ∧ cutoffDate ≤ dateVal t r := by
    intro t r
    simp [filteredRows, List.mem_filter]
  refine ⟨hmem, fun t r hr hd => ?_, fun t r hd hmemf => ?_⟩
  · exact (hmem t r).mpr ⟨hr, le_of_eq hd.symm⟩
  · have := ((hmem t r).mp hmemf).2
    omega

/-- C7 — witness: a single-record table whose record is dated exactly at
the cutoff; the record passes the filter. -/
theorem claim_C7_witness :
    (⟨cutoffDate, 0, none, none, "A", .null⟩ : RawRecord) ∈
      filteredRows ⟨true, false, false, false,
        [⟨cutoffDate, 0, none, none, "A", .null⟩]⟩ :=
  claim_C7_cutoff_inclusive.2.1 _ _ (by decide) (by decide)

/-- C1 — counterexample.  The claim asserts Sale-checked-first
precedence: a kind text containing both `sale` and `purchase` should
appear only in the Sales table.  The code builds the two tables with two
independent `str.contains` filters, so the record below lands in both
(the claim requires the Purchase table to stay empty). -/
theorem claim_C1_counterexample :
    saleMatch (some "Sale and Purchase") = true ∧
      (load_data ⟨false, true, true, false,
        [⟨0, cutoffDate, some "Sale and Purchase", none, "A", .num 100⟩]⟩).venda.length = 1 ∧
      (load_data ⟨false, true, true, false,
        [⟨0, cutoffDate, some "Sale and Purchase", none, "A", .num 100⟩]⟩).compra.length = 1 := by
  refine ⟨by decide, by decide, by decide⟩

/-- C1 — amended.  Classification is case-insensitive substring
matching, but as two independent filters, not first-match-wins: a
filtered record is in the Sales table iff its kind text contains `sale`,
and in the Purchase table iff it contains `purchase` or `buy` — so a
text containing both occurs in both tables, and one containing neither
occurs in neither.  The spec's concrete examples hold. -/
theorem claim_C1_amended :
    (∀ (t : RawTable) (r : RawRecord),
        (r ∈ vendaRows t ↔ r ∈ filteredRows t ∧ saleMatch (kindVal t r) = true) ∧
          (r ∈ compraRows t ↔ r ∈ filteredRows t ∧ purchaseMatch (kindVal t r) = true)) ∧
      saleMatch (some "Sale by officer") = true ∧
      purchaseMatch (some "Purchase (open market)") = true ∧
      purchaseMatch (some "Buy") = true ∧
      saleMatch (some "Grant") = false ∧
      purchaseMatch (some "Grant") = false ∧
      saleMatch (some "Sale and Purchase") = true ∧
      purchaseMatch (some "Sale and Purchase") = true := by
  refine ⟨fun t r => ⟨?_, ?_⟩, by decide, by decide, by decide, by decide, by decide,
    by decide, by decide⟩
  · simp [vendaRows, List.mem_filter]
  · simp [compraRows, List.mem_filter]

/-- C9 — confirmed.  On a non-empty record set missing every accepted
date-field name or every accepted kind-field name, `load_data` returns
all four tables empty and surfaces an error (the explicit date-column
error, resp. the caught `NameError` of the undefined `df_venda`). -/
theorem claim_C9_schema_abort :
    ∀ t : RawTable, t.rows ≠ [] →
      dateColPresent t = false ∨ kindColPresent t = false →
      (load_data t).venda = [] ∧ (load_data t).compra = [] ∧
        (load_data t).aggVenda = [] ∧ (load_data t).aggCompra = [] ∧
        (load_data t).status.isError = true := by
  intro t hne hcol
  have hemp : t.rows.isEmpty = false := by
    cases h : t.rows with
    | nil => exact absurd h hne
    | cons a l => rfl
  rcases hcol with h | h
  · simp [load_data, hemp, h, LoadStatus.isError]
  · by_cases hd : dateColPresent t
    · simp [load_data, hemp, hd, h, LoadStatus.isError]
    · simp [load_data, hemp, hd, LoadStatus.isError]

/-- C9 — witness: a one-record table with neither `Text` nor `Type`
column aborts with four empty tables and a surfaced error. -/
theorem claim_C9_witness :
    (load_data ⟨true, false, false, false,
        [⟨cutoffDate, 0, none, none, "A", .null⟩]⟩).venda = [] ∧
      (load_data ⟨true, false, false, false,
        [⟨cutoffDate, 0, none, none, "A", .null⟩]⟩).compra = [] ∧
      (load_data ⟨true, false, false, false,
        [⟨cutoffDate, 0, none, none, "A", .null⟩]⟩).aggVenda = [] ∧
      (load_data ⟨true, false, false, false,
        [⟨cutoffDate, 0, none, none, "A", .null⟩]⟩).aggCompra = [] ∧
      (load_data ⟨true, false, false, false,
        [⟨cutoffDate, 0, none, none, "A", .null⟩]⟩).status.isError = true :=
  claim_C9_schema_abort _ (by decide) (Or.inr (by decide))

/-- C10 — confirmed.  A record whose resolved kind cell is missing
(`None`/`NaN`) matches neither `str.contains` filter (`na=False`), so it
belongs to neither classified table. -/
theorem claim_C10_missing_kind :
    ∀ (t : RawTable) (r : RawRecord), kindVal t r = none →
      r ∉ vendaRows t ∧ r ∉ compraRows t := by
  intro t r h
  constructor
  · intro hmem
    have := (List.mem_filter.mp hmem).2
    rw [h] at this
    simp [saleMatch] at this
  · intro hmem
    have := (List.mem_filter.mp hmem).2
    rw [h] at this
    simp [purchaseMatch] at this

/-- C10 — witness: a record with a null `Text` cell is in neither
classified table. -/
theorem claim_C10_witness :
    (⟨0, cutoffDate, none, some "Sale", "A", .num 1⟩ : RawRecord) ∉
        vendaRows ⟨false, true, true, false,
          [⟨0, cutoffDate, none, some "Sale", "A", .num 1⟩]⟩ ∧
      (⟨0, cutoffDate, none, some "Sale", "A", .num 1⟩ : RawRecord) ∉
        compraRows ⟨false, true, true, false,
          [⟨0, cutoffDate, none, some "Sale", "A", .num 1⟩]⟩ :=
  claim_C10_missing_kind _ _ (by decide)

/-- C3 — counterexample.  The claim breaks value ties by
first-appearance order.  With first appearances `C` then `B`, the code
(`groupby` sorts its keys ascending before the stable value sort)
returns `B` before `C`, while the claim's tie-break demands `C` before
`B`. -/
theorem claim_C3_counterexample :
    aggregate [("C", 50), ("B", 50)] = [("B", 50), ("C", 50)] ∧
      specAggFirstAppear [("C", 50), ("B", 50)] = [("C", 50), ("B", 50)] ∧
      aggregate [("C", 50), ("B", 50)] ≠ specAggFirstAppear [("C", 50), ("B", 50)] := by
  refine ⟨by decide, by decide, by decide⟩

/-- C3 — amended.  Aggregation groups by exact case-sensitive insider
name, each output value is the sum of that insider's row values, and
the output is sorted by total descending; but value ties are *not*
broken by first-appearance order — with first appearances `C` then `B`
the code emits `B` before `C` — and their order is not otherwise a
program guarantee (it arises from the `groupby` key order combined with
an unstable sort kernel).  The claim's concrete example holds. -/
theorem claim_C3_amended :
    (∀ (rows : List (String × ℚ)), ∀ p ∈ aggregate rows,
        p.2 = ((rows.filter (fun x => x.1 == p.1)).map Prod.snd).sum) ∧
      (∀ rows : List (String × ℚ),
        List.Perm ((aggregate rows).map Prod.fst) (rows.map Prod.fst).dedup) ∧
      (∀ rows : List (String × ℚ), (aggregate rows).Sorted (fun p q => q.2 ≤ p.2)) ∧
      aggregate [("C", 50), ("B", 50)] = [("B", 50), ("C", 50)] ∧
      aggregate [("A", 100), ("B", 50), ("A", 25)] = [("A", 125), ("B", 50)] := by
  refine ⟨?_, ?_, ?_, by decide, by decide⟩
  · intro rows p hp
    have hp2 : p ∈ aggGrouped rows :=
      (sortDescBy_perm Prod.snd (aggGrouped rows)).mem_iff.mp hp
    obtain ⟨k, _, rfl⟩ := List.mem_map.mp hp2
    rfl
  · intro rows
    have h1 : List.Perm ((aggregate rows).map Prod.fst) ((aggGrouped rows).map Prod.fst) :=
      (sortDescBy_perm Prod.snd (aggGrouped rows)).map Prod.fst
    have h2 : (aggGrouped rows).map Prod.fst = aggKeys rows := by
      simp [aggGrouped, List.map_map, Function.comp_def]
    rw [h2] at h1
    exact h1.trans (List.perm_insertionSort _ _)
  · intro rows
    exact sortDescBy_sorted Prod.snd (aggGrouped rows)

/-- C3 — witness: the summed total of insider `A` in the spec's example. -/
theorem claim_C3_witness :
    (("A", (125 : ℚ))).2 =
      (([("A", (100 : ℚ)), ("B", 50), ("A", 25)].filter
        (fun x => x.1 == ("A", (125 : ℚ)).1)).map Prod.snd).sum :=
  claim_C3_amended.1 [("A", 100), ("B", 50), ("A", 25)] ("A", 125) (by decide)

/-- C8 — counterexample.  The claim requires every result table handed
on, aggregated ones included, to retain the numeric value alongside the
formatted string; but the aggregated tables drop `Value_Float` (source
line 74), leaving a non-empty table whose row has no numeric cell. -/
theorem claim_C8_counterexample :
    (load_data ⟨false, true, true, false,
        [⟨0, cutoffDate, some "Sale", none, "A", .num 100⟩]⟩).aggVenda =
      [[("Insider", Cell.str "A"), ("Value", Cell.str "$100.00")]] ∧
      ∀ c ∈ [("Insider", Cell.str "A"), ("Value", Cell.str "$100.00")],
        c.2.isNum = false := by
  refine ⟨by decide, by decide⟩

/-- C8 — amended.  Event-table rows each retain the numeric value
(`Value_Float`) alongside its formatted string (`Value`); the
aggregated tables instead carry only formatted strings — every cell of
every aggregated row is non-numeric. -/
theorem claim_C8_amended :
    ∀ t : RawTable,
      (∀ row ∈ (load_data t).venda, ∃ q : ℚ,
          ("Value_Float", Cell.num q) ∈ row ∧
            ("Value", Cell.str (format_currency (some q))) ∈ row) ∧
        (∀ row ∈ (load_data t).compra, ∃ q : ℚ,
          ("Value_Float", Cell.num q) ∈ row ∧
            ("Value", Cell.str (format_currency (some q))) ∈ row) ∧
        (∀ row ∈ (load_data t).aggVenda, ∀ c ∈ row, c.2.isNum = false) ∧
        ∀ row ∈ (load_data t).aggCompra, ∀ c ∈ row, c.2.isNum = false := by
  intro t
  by_cases h1 : t.rows.isEmpty
  · simp [load_data, h1]
  · by_cases h2 : dateColPresent t
    · by_cases h3 : kindColPresent t
      · have hv : (load_data t).venda = (vendaSorted t).map (eventOutRow t) := by
          simp [load_data, h1, h2, h3]
        have hc : (load_data t).compra = (compraSorted t).map (eventOutRow t) := by
          simp [load_data, h1, h2, h3]
        have hav : (load_data t).aggVenda =
            (aggregate (insiderValuePairs (vendaSorted t))).map aggOutRow := by
          simp [load_data, h1, h2, h3]
        have hac : (load_data t).aggCompra =
            (aggregate (insiderValuePairs (compraSorted t))).map aggOutRow := by
          simp [load_data, h1, h2, h3]
        refine ⟨?_, ?_, ?_, ?_⟩
        · intro row hrow
          rw [hv] at hrow
          obtain ⟨r, _, rfl⟩ := List.mem_map.mp hrow
          exact ⟨(clean_value r.value).toRat, by simp [eventOutRow], by simp [eventOutRow]⟩
        · intro row hrow
          rw [hc] at hrow
          obtain ⟨r, _, rfl⟩ := List.mem_map.mp hrow
          exact ⟨(clean_value r.value).toRat, by simp [eventOutRow], by simp [eventOutRow]⟩
        · intro row hrow c hcell
          rw [hav] at hrow
          obtain ⟨p, _, rfl⟩ := List.mem_map.mp hrow
          simp only [aggOutRow, List.mem_cons, List.not_mem_nil, or_false] at hcell
          rcases hcell with rfl | rfl <;> rfl
        · intro row hrow c hcell
          rw [hac] at hrow
          obtain ⟨p, _, rfl⟩ := List.mem_map.mp hrow
          simp only [aggOutRow, List.mem_cons, List.not_mem_nil, or_false] at hcell
          rcases hcell with rfl | rfl <;> rfl
      · simp [load_data, h1, h2, h3]
    · simp [load_data, h1, h2]

/-- C8 — witness: the event row produced for a concrete sale carries
both the numeric amount and its formatted string. -/
theorem claim_C8_witness :
    ∃ q : ℚ,
      ("Value_Float", Cell.num q) ∈
        [("Date", Cell.date cutoffDate), ("Insider", Cell.str "A"),
          ("Value", Cell.str "$100.00"), ("Value_Float", Cell.num 100)] ∧
        ("Value", Cell.str (format_currency (some q))) ∈
          [("Date", Cell.date cutoffDate), ("Insider", Cell.str "A"),
            ("Value", Cell.str "$100.00"), ("Value_Float", Cell.num 100)] :=
  (claim_C8_amended ⟨false, true, true, false,
    [⟨0, cutoffDate, some "Sale", none, "A", .num 100⟩]⟩).1 _ (by decide)

end Transac
